import Mathlib

/-!
Verification of the weather-cli repository (weather_cli_spark.py and
weather_cli_rich.py) against its natural-language specification.

The two source files share a fetch/normalize/render pipeline.  This file gives a
shallow embedding of the parts the claims are about:

* the sparkline quantizer (`sparkline` in both variants; the plain variant
  clamps the palette index, the rich variant does not);
* the Case B forecast normalizer (`fetch_weather_and_forecast`): the hourly
  padding logic and the daily aggregation by UTC calendar day;
* the primary/fallback selection in `fetch_onecall`;
* `geocode_owm` and the surrounding orchestration in `main`;
* the default handling for missing fields in `render_owm` / `render_rich_owm`.

Numeric samples (Python floats) are embedded as exact rationals; Python `int()`
truncation of a nonnegative quantity is `Int.floor`; code that would raise an
exception is embedded with `Option` / `Except`.  Network responses are passed in
as explicit values, and the adapter functions additionally return the list of
endpoints they contacted, in order, so that call-count properties can be stated.
-/

namespace WeatherCli

/-! ## Sparkline quantizer

Python source (weather_cli_spark.py lines 48-64):

```
SPARK = "▁▂▃▄▅▆▇█"
def sparkline(values, width=24):
    if not values: return ""
    if len(values) > width:
        step = len(values) / width
        vals = [values[int(i*step)] for i in range(width)]
    else:
        vals = values + [values[-1]]*(width - len(values))
    lo = min(vals); hi = max(vals)
    if hi == lo:
        return "".join(SPARK[0] for _ in vals)
    out = ""
    for v in vals:
        idx = int((v - lo) / (hi - lo) * (len(SPARK)-1))
        out += SPARK[max(0, min(len(SPARK)-1, idx))]
    return out
```

The rich variant (weather_cli_rich.py lines 56-67) is identical except that the
final indexing is unclamped: `SPARK[int((v-lo)/(hi-lo)*(len(SPARK)-1))]`, and
the default width is 30 instead of 24 (the width is a parameter here, so the
default is irrelevant).  `min(vals)` / `max(vals)` raise ValueError on an empty
working list (which happens exactly when `width = 0` and `values` is nonempty);
that raise is embedded as a `none` result.  The nonnegative float truncations
`int(i*step)` and `int(...)` are floors, embedded as natural division and
`Int.floor` over ℚ.
-/

def SPARK : List Char := ['▁', '▂', '▃', '▄', '▅', '▆', '▇', '█']

/-- Working set of the sparkline: downsample by stride when there are more
samples than the width, otherwise right-pad by repeating the last sample. -/
def resample (values : List ℚ) (width : Nat) : List ℚ :=
  if width < values.length then
    (List.range width).map (fun i => values.getD (i * values.length / width) 0)
  else
    values ++ List.replicate (width - values.length) (values.getLastD 0)

/-- Palette index before clamping: `int((v - lo) / (hi - lo) * (len(SPARK)-1))`. -/
def quantIdx (lo hi v : ℚ) : Int :=
  Int.floor ((v - lo) / (hi - lo) * ((SPARK.length : ℚ) - 1))

/-- The plain-variant sparkline (weather_cli_spark.py), with the index clamp. -/
def sparklineSpark (values : List ℚ) (width : Nat) : Option (List Char) :=
  if values = [] then some [] else
  let vals := resample values width
  match vals.min?, vals.max? with
  | some lo, some hi =>
    if hi = lo then some (vals.map (fun _ => SPARK.getD 0 ' '))
    else some (vals.map (fun v =>
      SPARK.getD (Int.toNat (max 0 (min ((SPARK.length : Int) - 1) (quantIdx lo hi v)))) ' '))
  | _, _ => none

/-- The rich-variant sparkline (weather_cli_rich.py), without the index clamp. -/
def sparklineRich (values : List ℚ) (width : Nat) : Option (List Char) :=
  if values = [] then some [] else
  let vals := resample values width
  match vals.min?, vals.max? with
  | some lo, some hi =>
    if hi = lo then some (vals.map (fun _ => SPARK.getD 0 ' '))
    else some (vals.map (fun v => SPARK.getD (Int.toNat (quantIdx lo hi v)) ' '))
  | _, _ => none

/-! ## Case B normalizer: fetch_weather_and_forecast

The fallback payload is a list of 3-hour forecast entries.  Each entry carries a
unix timestamp `dt`, a `main` object with nullable `temp`, `temp_min`,
`temp_max`, and a `weather` array whose elements have nullable `main` and
`description` strings.  The code reads `item.get("dt")` and immediately feeds it
to `datetime.utcfromtimestamp`, so a missing `dt` raises; accordingly `dt` is a
plain integer here.  The daily aggregation reads `item.get("weather",[{}])[0]`,
i.e. the first weather element, or an all-default element when the key is
missing; a present-but-empty weather array would raise IndexError in Python (the
payload shape always carries at least one element) and is embedded as the
all-default element as well. -/

structure WeatherTag where
  main : Option String
  description : Option String
deriving DecidableEq

structure ForecastItem where
  dt : Int
  temp : Option ℚ
  temp_min : Option ℚ
  temp_max : Option ℚ
  weather : List WeatherTag
deriving DecidableEq

/-- UTC calendar day of a unix timestamp, as the (floor) number of days since
the epoch; `datetime.utcfromtimestamp(dt).date()` in the plain variant and
`datetime.fromtimestamp(dt, tz=utc).date()` in the rich variant both give the
same UTC date, and comparing or sorting those dates is the same as comparing
these day ordinals. -/
def utcDay (dt : Int) : Int := Int.fdiv dt 86400

def itemDay (it : ForecastItem) : Int := utcDay it.dt

/-- Entry of the canonical `hourly` list: `{"dt": ..., "temp": ..., "weather": ...}`. -/
structure HourlyEntry where
  dt : Int
  temp : Option ℚ
  weather : List WeatherTag
deriving DecidableEq

def toHourly (it : ForecastItem) : HourlyEntry := ⟨it.dt, it.temp, it.weather⟩

/-- Lines 104-121 of weather_cli_spark.py (107-121 of the rich variant): the
loop appends the first entries, breaking once 24 are collected; then, if the
list is nonempty but shorter than 24, it repeats the last element until the
length is 24. -/
def buildHourly (l : List ForecastItem) : List HourlyEntry :=
  let hourly := (l.take 24).map toHourly
  match hourly.getLast? with
  | none => hourly
  | some last => hourly ++ List.replicate (24 - hourly.length) last

/-- One value of `daily_map`: the three parallel lists the loop appends to
(`temps` as (temp_min, temp_max) pairs, `weathers` as the projected first
weather element, `dts`). -/
structure DayGroup where
  temps : List (Option ℚ × Option ℚ)
  weathers : List WeatherTag
  dts : List Int
deriving DecidableEq

def firstWeather (it : ForecastItem) : WeatherTag := it.weather.headD ⟨none, none⟩

def DayGroup.push (g : DayGroup) (it : ForecastItem) : DayGroup :=
  ⟨g.temps ++ [(it.temp_min, it.temp_max)],
   g.weathers ++ [firstWeather it],
   g.dts ++ [it.dt]⟩

def emptyGroup : DayGroup := ⟨[], [], []⟩

/-- Appending a whole list of items to a group, one push at a time. -/
def DayGroup.pushAll (g : DayGroup) (l : List ForecastItem) : DayGroup :=
  l.foldl DayGroup.push g

/-- One step of the grouping loop: `daily_map.setdefault(day, empty)` followed
by the three appends.  A Python dict preserves insertion order, so it is an
association list to which a new key is appended at the end. -/
def addItem : List (Int × DayGroup) → ForecastItem → List (Int × DayGroup)
  | [], it => [(itemDay it, emptyGroup.push it)]
  | (k, g) :: rest, it =>
      if k = itemDay it then (k, g.push it) :: rest
      else (k, g) :: addItem rest it

def buildDailyMap (l : List ForecastItem) : List (Int × DayGroup) :=
  l.foldl addItem []

/-- One entry of the canonical `daily` list. -/
structure DailyEntry where
  dt : Int
  temp_min : Option ℚ
  temp_max : Option ℚ
  weather : WeatherTag
deriving DecidableEq

/-- The per-day aggregation body (lines 136-152 of weather_cli_spark.py):
minimum of the non-null temp_min values (None when there are none), maximum of
the non-null temp_max values, and the weather and timestamp of the middle entry
(`len // 2`); when the group is empty the weather defaults to the empty dict
and the timestamp to the current time, passed in as `now`. -/
def mkDailyEntry (now : Int) (g : DayGroup) : DailyEntry :=
  let mins := g.temps.filterMap (fun p => p.1)
  let maxs := g.temps.filterMap (fun p => p.2)
  let mid := g.weathers.length / 2
  ⟨g.dts.getD mid now, mins.min?, maxs.max?, g.weathers.getD mid ⟨none, none⟩⟩

/-- Lookup in the insertion-ordered association list that embeds `daily_map`;
`daily_map[day]` in the loop over `sorted(daily_map.keys())` always finds its
key, so the `emptyGroup` default used below never fires. -/
def lookupDay : List (Int × DayGroup) → Int → Option DayGroup
  | [], _ => none
  | (k, g) :: rest, d => if k = d then some g else lookupDay rest d

/-- The `daily` list Case B builds: group the forecast entries into
`daily_map`, then aggregate each group, iterating the keys in sorted order. -/
def buildDaily (now : Int) (l : List ForecastItem) : List DailyEntry :=
  (List.insertionSort (fun a b => a ≤ b) ((buildDailyMap l).map Prod.fst)).map
    (fun day => mkDailyEntry now ((lookupDay (buildDailyMap l) day).getD emptyGroup))

def dayFilter (l : List ForecastItem) (d : Int) : List ForecastItem :=
  l.filter (fun it => itemDay it = d)

/-- The daily aggregation as section 4.2 of the spec words it: group all
forecast entries by the UTC calendar day of their timestamp; for each day, in
ascending date order, `min` is the minimum of the non-null minimum-temperature
fields, `max` the maximum of the non-null maximum-temperature fields (null when
no entry has a value), and the representative condition, description and
timestamp come from the entry at index `count / 2` of that day, the timestamp
defaulting to the current time for an empty group. -/
def dailySpec (now : Int) (l : List ForecastItem) : List DailyEntry :=
  (List.insertionSort (fun a b => a ≤ b) ((l.map itemDay).dedup)).map (fun day =>
    { dt := (((dayFilter l day)[(dayFilter l day).length / 2]?).map
        (fun it => it.dt)).getD now
      temp_min := ((dayFilter l day).filterMap (fun it => it.temp_min)).min?
      temp_max := ((dayFilter l day).filterMap (fun it => it.temp_max)).max?
      weather := (((dayFilter l day)[(dayFilter l day).length / 2]?).map
        firstWeather).getD ⟨none, none⟩ })

/-! ## Data source adapter: fetch_onecall and geocode_owm

Network effects are embedded by passing the responses in as values and by
returning, next to the result, the list of endpoints contacted in order.  A
`requests` call either yields a response with a status code and a body or
raises `RequestException`; `raise_for_status` and the raising path are embedded
as `Except.error`. -/

/-- Outcome of the single GET against the One Call endpoint. -/
inductive PrimaryResult (α : Type) where
  | resp (status : Nat) (body : α)
  | exn
deriving DecidableEq

inductive NetCall where
  | geocode
  | onecall
  | currentAndForecast
deriving DecidableEq

/-- Lines 75-92 of weather_cli_spark.py (81-95 of the rich variant): one GET to
the One Call endpoint; status 200 returns its JSON unchanged, any other status
or a raised RequestException delegates to fetch_weather_and_forecast, whose
outcome is `fb` (`Except.error` when that fetch itself raises, which propagates
to the caller). -/
def fetch_onecall {α : Type} (pr : PrimaryResult α) (fb : Except String α) :
    Except String α × List NetCall :=
  match pr with
  | .resp status body =>
      if status = 200 then (.ok body, [.onecall])
      else (fb, [.onecall, .currentAndForecast])
  | .exn => (fb, [.onecall, .currentAndForecast])

structure GeoMatch where
  lat : ℚ
  lon : ℚ
  name : Option String
  country : Option String
deriving DecidableEq

/-- Lines 67-72 of weather_cli_spark.py (70-78 of the rich variant), given the
JSON array `j` the geocoding endpoint returned: an empty array raises
`ValueError("City not found")`, otherwise the first element is taken, with
`name` defaulting to the query and `country` to the empty string. -/
def geocode_owm (city : String) (j : List GeoMatch) :
    Except String (ℚ × ℚ × String × String) :=
  match j with
  | [] => .error "City not found"
  | it :: _ => .ok (it.lat, it.lon, it.name.getD city, it.country.getD "")

/-- The user-visible outcome of the city branch of `main`: either a rendered
payload under a place label, or a single error line. -/
inductive RunOutcome (α : Type) where
  | rendered (data : α) (placeLabel : String)
  | errorLine (msg : String)
deriving DecidableEq

/-- The `USE_OWM and city` branch of the try-block in `main`: geocode the city,
then fetch, then render; a raised error is caught by the surrounding
try/except and printed as a single line (`ValueError` by the generic
`except Exception` handler as "Error: ...", an HTTP error as
"Network/API error: ...").  The second component records the endpoints
contacted, in order. -/
def runCityQuery {α : Type} (city : String) (geoResp : List GeoMatch)
    (pr : PrimaryResult α) (fb : Except String α) : RunOutcome α × List NetCall :=
  match geocode_owm city geoResp with
  | .error e => (.errorLine ("Error: " ++ e), [.geocode])
  | .ok (_, _, name, country) =>
      let fetched := fetch_onecall pr fb
      match fetched.1 with
      | .ok data =>
          (.rendered data (if country = "" then name else name ++ ", " ++ country),
           .geocode :: fetched.2)
      | .error e => (.errorLine ("Network/API error: " ++ e), .geocode :: fetched.2)

/-! ## Presentation layer defaults: render_owm / render_rich_owm

The claims concern the default values used for missing fields of the canonical
`current` object, and the unit suffixes.  Python `round` on a float is
round-half-to-even; it is embedded exactly on ℚ. -/

structure CurrentData where
  dt : Option Int
  temp : Option ℚ
  feels_like : Option ℚ
  humidity : Option Nat
  wind_speed : Option ℚ
  weather : List WeatherTag
deriving DecidableEq

/-- Python round: nearest integer, ties to even. -/
def pyRound (q : ℚ) : Int :=
  let n := Int.floor q
  if q - n < 1/2 then n
  else if 1/2 < q - n then n + 1
  else if n % 2 = 0 then n else n + 1

def unitSym (units : String) : String := if units = "metric" then "°C" else "°F"

def windUnit (units : String) : String := if units = "metric" then "m/s" else "mph"

/-- Line 205 of weather_cli_spark.py:
the Temp line: round the temperature (default 0 when missing), the unit suffix,
then the feels-like temperature handled the same way. -/
def tempLine (cur : CurrentData) (units : String) : String :=
  "Temp: " ++ toString (pyRound (cur.temp.getD 0)) ++ unitSym units ++
  "  Feels: " ++ toString (pyRound (cur.feels_like.getD 0)) ++ unitSym units

/-- Line 206 of weather_cli_spark.py:
the Humidity and Wind line: the humidity value (an em-dash placeholder when
missing), then the rounded wind speed (default 0) with its unit. -/
def humidityWindLine (cur : CurrentData) (units : String) : String :=
  "Humidity: " ++ (match cur.humidity with | some h => toString h | none => "—") ++
  "%  Wind: " ++ toString (pyRound (cur.wind_speed.getD 0)) ++ " " ++ windUnit units

/-- Line 190 of weather_cli_rich.py, the "Temp" row:
the rounded temperature (default 0 when missing) with unit suffix, then the
feels-like temperature in parentheses, handled the same way. -/
def richTempRow (cur : CurrentData) (units : String) : String :=
  toString (pyRound (cur.temp.getD 0)) ++ unitSym units ++
  " (feels " ++ toString (pyRound (cur.feels_like.getD 0)) ++ unitSym units ++ ")"

/-- Line 191 of weather_cli_rich.py, the "Humidity" row. -/
def richHumidityRow (cur : CurrentData) : String :=
  (match cur.humidity with | some h => toString h | none => "—") ++ "%"

/-- Line 192 of weather_cli_rich.py, the "Wind" row. -/
def richWindRow (cur : CurrentData) (units : String) : String :=
  toString (pyRound (cur.wind_speed.getD 0)) ++ " " ++ windUnit units

/-- A current object with every field missing. -/
def emptyCurrent : CurrentData := ⟨none, none, none, none, none, []⟩

/-- The concrete sample payloads used in the claims: 3-hour steps starting at
the epoch, with temp_min = i, temp_max = i + 1 for the i-th entry. -/
def sampleItem (i : Nat) : ForecastItem :=
  ⟨10800 * (i : Int), some ((i : ℚ)), some ((i : ℚ)), some ((i : ℚ) + 1),
   [⟨some "Clear", some "clear sky"⟩]⟩

def sample5 : List ForecastItem := (List.range 5).map sampleItem

def sample30 : List ForecastItem := (List.range 30).map sampleItem

/-! ## Lemmas about the sparkline quantizer -/

theorem resample_length (values : List ℚ) (width : Nat) :
    (resample values width).length = width := by
  unfold resample
  split
  · simp
  · rename_i h
    simp only [List.length_append, List.length_replicate]
    omega

theorem mem_resample {values : List ℚ} {width : Nat} (hne : values ≠ [])
    {v : ℚ} (hv : v ∈ resample values width) : v ∈ values := by
  unfold resample at hv
  split at hv
  · rename_i h
    obtain ⟨i, hi, rfl⟩ := List.mem_map.mp hv
    have hw : 0 < width := Nat.lt_of_le_of_lt (Nat.zero_le _) (List.mem_range.mp hi)
    have hidx : i * values.length / width < values.length := by
      rw [Nat.div_lt_iff_lt_mul hw]
      have hlen : 0 < values.length := Nat.lt_of_le_of_lt (Nat.zero_le _) h
      calc i * values.length < width * values.length :=
            Nat.mul_lt_mul_of_lt_of_le (List.mem_range.mp hi) (le_refl _) hlen
        _ = values.length * width := Nat.mul_comm _ _
    rw [List.getD_eq_getElem _ _ hidx]
    exact List.getElem_mem hidx
  · rcases List.mem_append.mp hv with h1 | h1
    · exact h1
    · have := List.eq_of_mem_replicate h1
      subst this
      rw [List.getLastD_eq_getLast?, List.getLast?_eq_getLast values hne]
      exact List.getLast_mem hne

theorem min?_le_of_mem {l : List ℚ} {lo v : ℚ} (h : l.min? = some lo) (hv : v ∈ l) :
    lo ≤ v :=
  (List.le_min?_iff (fun _ _ _ => le_min_iff) h).1 (le_refl lo) v hv

theorem le_max?_of_mem {l : List ℚ} {hi v : ℚ} (h : l.max? = some hi) (hv : v ∈ l) :
    v ≤ hi :=
  (List.max?_le_iff (fun _ _ _ => max_le_iff) h).1 (le_refl hi) v hv

theorem SPARK_length_eq : SPARK.length = 8 := rfl

theorem quantIdx_nonneg {lo hi v : ℚ} (hlo : lo ≤ v) (hlt : lo < hi) :
    0 ≤ quantIdx lo hi v := by
  unfold quantIdx
  apply Int.floor_nonneg.mpr
  have h1 : (0 : ℚ) ≤ (v - lo) / (hi - lo) := div_nonneg (by linarith) (by linarith)
  have h2 : (0 : ℚ) ≤ (SPARK.length : ℚ) - 1 := by rw [SPARK_length_eq]; norm_num
  exact mul_nonneg h1 h2

theorem quantIdx_le_seven {lo hi v : ℚ} (hhi : v ≤ hi) (hlt : lo < hi) :
    quantIdx lo hi v ≤ 7 := by
  unfold quantIdx
  have h1 : (v - lo) / (hi - lo) ≤ 1 := (div_le_one (by linarith)).mpr (by linarith)
  have h2 : (v - lo) / (hi - lo) * ((SPARK.length : ℚ) - 1) ≤ 7 := by
    rw [SPARK_length_eq]
    push_cast
    nlinarith [h1]
  calc Int.floor ((v - lo) / (hi - lo) * ((SPARK.length : ℚ) - 1))
      ≤ Int.floor ((7 : ℚ)) := Int.floor_le_floor h2
    _ = 7 := by norm_num

/-- The clamp in the plain variant never changes the index, so the two
sparkline variants agree on every input. -/
theorem sparkline_variants_agree (values : List ℚ) (width : Nat) :
    sparklineSpark values width = sparklineRich values width := by
  by_cases hv : values = []
  · simp [sparklineSpark, sparklineRich, hv]
  · simp only [sparklineSpark, sparklineRich, if_neg hv]
    cases hmin : (resample values width).min? with
    | none => simp
    | some lo =>
      cases hmax : (resample values width).max? with
      | none => simp
      | some hi =>
        by_cases heq : hi = lo
        · simp [heq]
        · simp only [if_neg heq]
          congr 1
          apply List.map_congr_left
          intro v hv'
          have h1 : lo ≤ v := min?_le_of_mem hmin hv'
          have h2 : v ≤ hi := le_max?_of_mem hmax hv'
          have h3 : lo < hi := lt_of_le_of_ne (le_trans h1 h2) (fun h => heq h.symm)
          have h4 := quantIdx_nonneg h1 h3
          have h5 := quantIdx_le_seven h2 h3
          congr 1
          have h6 : (SPARK.length : Int) - 1 = 7 := by rw [SPARK_length_eq]; norm_num
          rw [h6]
          omega

theorem getD_SPARK_mem : ∀ k : Nat, k < 8 → SPARK.getD k ' ' ∈ SPARK := by decide

/-- Existence, length and palette membership for the plain variant. -/
theorem sparklineSpark_spec (values : List ℚ) (width : Nat)
    (hne : values ≠ []) (hw : 0 < width) :
    ∃ s, sparklineSpark values width = some s ∧ s.length = width ∧
      ∀ c ∈ s, c ∈ SPARK := by
  have hlen := resample_length values width
  have hvne : resample values width ≠ [] := by
    intro h
    rw [h] at hlen
    simp at hlen
    omega
  obtain ⟨lo, hmin⟩ : ∃ lo, (resample values width).min? = some lo := by
    cases h : (resample values width).min? with
    | none => exact absurd (List.min?_eq_none_iff.mp h) hvne
    | some lo => exact ⟨lo, rfl⟩
  obtain ⟨hi, hmax⟩ : ∃ hi, (resample values width).max? = some hi := by
    cases h : (resample values width).max? with
    | none => exact absurd (List.max?_eq_none_iff.mp h) hvne
    | some hi => exact ⟨hi, rfl⟩
  simp only [sparklineSpark, if_neg hne, hmin, hmax]
  by_cases heq : hi = lo
  · refine ⟨_, by rw [if_pos heq], by simp [hlen], ?_⟩
    intro c hc
    obtain ⟨v, _, rfl⟩ := List.mem_map.mp hc
    exact getD_SPARK_mem 0 (by norm_num)
  · refine ⟨_, by rw [if_neg heq], by simp [hlen], ?_⟩
    intro c hc
    obtain ⟨v, hv', rfl⟩ := List.mem_map.mp hc
    apply getD_SPARK_mem
    have h6 : (SPARK.length : Int) - 1 = 7 := by rw [SPARK_length_eq]; norm_num
    rw [h6]
    omega

theorem foldl_min_map (f : ℚ → ℚ) (hf : Monotone f) :
    ∀ (l : List ℚ) (a : ℚ), (l.map f).foldl min (f a) = f (l.foldl min a)
  | [], _ => rfl
  | x :: xs, a => by
    simp only [List.map_cons, List.foldl_cons]
    rw [← hf.map_min, foldl_min_map f hf xs (min a x)]

theorem foldl_max_map (f : ℚ → ℚ) (hf : Monotone f) :
    ∀ (l : List ℚ) (a : ℚ), (l.map f).foldl max (f a) = f (l.foldl max a)
  | [], _ => rfl
  | x :: xs, a => by
    simp only [List.map_cons, List.foldl_cons]
    rw [← hf.map_max, foldl_max_map f hf xs (max a x)]

theorem min?_map_mono (f : ℚ → ℚ) (hf : Monotone f) (l : List ℚ) :
    (l.map f).min? = (l.min?).map f := by
  cases l with
  | nil => rfl
  | cons a as =>
    simp only [List.map_cons, List.min?_cons', Option.map_some']
    exact congrArg some (foldl_min_map f hf as a)

theorem max?_map_mono (f : ℚ → ℚ) (hf : Monotone f) (l : List ℚ) :
    (l.map f).max? = (l.max?).map f := by
  cases l with
  | nil => rfl
  | cons a as =>
    simp only [List.map_cons, List.max?_cons', Option.map_some']
    exact congrArg some (foldl_max_map f hf as a)

theorem affine_monotone {a : ℚ} (ha : 0 < a) (b : ℚ) :
    Monotone (fun v => a * v + b) := by
  intro x y h
  simp only
  nlinarith

theorem resample_map_affine (f : ℚ → ℚ) (values : List ℚ) (width : Nat)
    (hne : values ≠ []) :
    resample (values.map f) width = (resample values width).map f := by
  unfold resample
  rw [List.length_map]
  split
  · rename_i h
    rw [List.map_map]
    apply List.map_congr_left
    intro i hi
    have hw : 0 < width := Nat.lt_of_le_of_lt (Nat.zero_le _) (List.mem_range.mp hi)
    have hidx : i * values.length / width < values.length := by
      rw [Nat.div_lt_iff_lt_mul hw]
      have hlen : 0 < values.length := Nat.lt_of_le_of_lt (Nat.zero_le _) h
      calc i * values.length < width * values.length :=
            Nat.mul_lt_mul_of_lt_of_le (List.mem_range.mp hi) (le_refl _) hlen
        _ = values.length * width := Nat.mul_comm _ _
    have hidx2 : i * values.length / width < (values.map f).length := by
      simpa using hidx
    simp only [Function.comp]
    rw [List.getD_eq_getElem _ _ hidx2, List.getD_eq_getElem _ _ hidx,
      List.getElem_map]
  · rw [List.map_append, List.map_replicate]
    congr 2
    rw [List.getLastD_eq_getLast?, List.getLastD_eq_getLast?, List.getLast?_map]
    rw [List.getLast?_eq_getLast values hne]
    rfl

theorem quantIdx_affine {a : ℚ} (ha : 0 < a) (b lo hi v : ℚ) :
    quantIdx (a * lo + b) (a * hi + b) (a * v + b) = quantIdx lo hi v := by
  unfold quantIdx
  have h1 : a * v + b - (a * lo + b) = a * (v - lo) := by ring
  have h2 : a * hi + b - (a * lo + b) = a * (hi - lo) := by ring
  rw [h1, h2, mul_div_mul_left _ _ (ne_of_gt ha)]

theorem sparkline_affine_aux (values : List ℚ) (width : Nat) (a b : ℚ)
    (ha : 0 < a) :
    sparklineSpark (values.map (fun v => a * v + b)) width =
      sparklineSpark values width := by
  by_cases hv : values = []
  · subst hv; rfl
  · have hmapne : values.map (fun v => a * v + b) ≠ [] := by simpa using hv
    simp only [sparklineSpark, if_neg hv, if_neg hmapne]
    rw [resample_map_affine _ values width hv,
      min?_map_mono _ (affine_monotone ha b),
      max?_map_mono _ (affine_monotone ha b)]
    cases hmin : (resample values width).min? with
    | none => simp
    | some lo =>
      cases hmax : (resample values width).max? with
      | none => simp
      | some hi =>
        simp only [Option.map_some']
        by_cases heq : hi = lo
        · subst heq
          rw [if_pos rfl, if_pos rfl, List.map_map]
          rfl
        · have hne2 : a * hi + b ≠ a * lo + b := by
            intro h
            exact heq (mul_left_cancel₀ (ne_of_gt ha) (by linarith))
          rw [if_neg heq, if_neg hne2, List.map_map]

          congr 1
          apply List.map_congr_left
          intro v _
          simp only [Function.comp_apply]
          rw [quantIdx_affine ha b lo hi v]

/-! ## Sparkline claims -/

/-- C3: for every nonempty sample list and every positive target width W, the
sparkline quantizer (either variant) returns a string of exactly W glyphs, each
drawn from the fixed 8-level palette; for the empty input it returns the empty
string. -/
theorem claim_sparkline_length_palette (values : List ℚ) (width : Nat)
    (hne : values ≠ []) (hw : 0 < width) :
    (∃ s, sparklineSpark values width = some s ∧ s.length = width ∧
      ∀ c ∈ s, c ∈ SPARK)
    ∧ (∃ s, sparklineRich values width = some s ∧ s.length = width ∧
      ∀ c ∈ s, c ∈ SPARK)
    ∧ (∀ w, sparklineSpark [] w = some [] ∧ sparklineRich [] w = some []) := by
  refine ⟨sparklineSpark_spec values width hne hw, ?_, ?_⟩
  · rw [← sparkline_variants_agree]
    exact sparklineSpark_spec values width hne hw
  · intro w
    exact ⟨rfl, rfl⟩

theorem claim_sparkline_length_palette_witness :
    (∃ s, sparklineSpark [(1 : ℚ), 2] 3 = some s ∧ s.length = 3 ∧
      ∀ c ∈ s, c ∈ SPARK)
    ∧ (∃ s, sparklineRich [(1 : ℚ), 2] 3 = some s ∧ s.length = 3 ∧
      ∀ c ∈ s, c ∈ SPARK)
    ∧ (∀ w, sparklineSpark [] w = some [] ∧ sparklineRich [] w = some []) :=
  claim_sparkline_length_palette [1, 2] 3 (List.cons_ne_nil _ _) (by norm_num)

/-- C4 as stated is false at its own input: with samples [10, 20, 30] and
W = 6 the input length (3) is not greater than the width, so the code takes the
padding branch, not the downsampling branch; the output is one low glyph, one
middle glyph and four high glyphs, not two of each. -/
theorem claim_sparkline_concrete_cex :
    sparklineSpark [10, 20, 30] 6 = some ['▁', '▄', '█', '█', '█', '█'] ∧
    sparklineSpark [10, 20, 30] 6 ≠ some ['▁', '▁', '▄', '▄', '█', '█'] := by
  have h : sparklineSpark [10, 20, 30] 6 = some ['▁', '▄', '█', '█', '█', '█'] := by
    with_unfolding_all rfl
  refine ⟨h, ?_⟩
  rw [h]
  decide

/-- C4 amended: for samples [10, 20, 30] with W = 6 the input is shorter than
the width, so the quantizer right-pads with the last sample, giving the working
set [10, 20, 30, 30, 30, 30]; by the min/max quantization formula the output is
one glyph for the low value, one for the mid value and four for the high value,
in both variants. -/
theorem claim_sparkline_concrete_amended :
    resample [10, 20, 30] 6 = [10, 20, 30, 30, 30, 30] ∧
    sparklineSpark [10, 20, 30] 6 = some ['▁', '▄', '█', '█', '█', '█'] ∧
    sparklineRich [10, 20, 30] 6 = some ['▁', '▄', '█', '█', '█', '█'] :=
  ⟨by with_unfolding_all rfl, by with_unfolding_all rfl, by with_unfolding_all rfl⟩

/-- C5: applying v ↦ a*v + b with a positive factor a to every sample does not
change the sparkline output, in either variant. -/
theorem claim_sparkline_affine_invariant (values : List ℚ) (width : Nat)
    (a b : ℚ) (ha : 0 < a) (hne : values ≠ []) :
    sparklineSpark (values.map (fun v => a * v + b)) width =
      sparklineSpark values width
    ∧ sparklineRich (values.map (fun v => a * v + b)) width =
      sparklineRich values width := by
  refine ⟨sparkline_affine_aux values width a b ha, ?_⟩
  rw [← sparkline_variants_agree, ← sparkline_variants_agree]
  exact sparkline_affine_aux values width a b ha

theorem claim_sparkline_affine_invariant_witness :
    sparklineSpark ([(1 : ℚ), 3].map (fun v => 2 * v + 5)) 4 =
      sparklineSpark [(1 : ℚ), 3] 4
    ∧ sparklineRich ([(1 : ℚ), 3].map (fun v => 2 * v + 5)) 4 =
      sparklineRich [(1 : ℚ), 3] 4 :=
  claim_sparkline_affine_invariant [1, 3] 4 2 5 (by norm_num) (List.cons_ne_nil _ _)

/-- C6 as stated quantifies over every width W, but at W = 0 (with a nonempty
all-equal input such as [5]) the working set is empty and the Python min()
raises a ValueError (embedded as a none result) instead of producing the
0-glyph string. -/
theorem claim_sparkline_flat_cex :
    sparklineSpark [(5 : ℚ)] 0 = none ∧
    sparklineSpark [(5 : ℚ)] 0 ≠ some (List.replicate 0 (SPARK.getD 0 ' ')) := by
  have h : sparklineSpark [(5 : ℚ)] 0 = none := by with_unfolding_all rfl
  refine ⟨h, ?_⟩
  rw [h]
  decide

/-- C6 amended to positive widths: for every nonempty sample list whose
elements are all equal and every width W ≥ 1, the output is exactly W
repetitions of the lowest-weight palette glyph, in both variants; in
particular [5] with W = 4 yields four repetitions of the lowest glyph. -/
theorem claim_sparkline_flat (values : List ℚ) (width : Nat) (c : ℚ)
    (hne : values ≠ []) (hall : ∀ x ∈ values, x = c) (hw : 0 < width) :
    sparklineSpark values width = some (List.replicate width (SPARK.getD 0 ' '))
    ∧ sparklineRich values width = some (List.replicate width (SPARK.getD 0 ' '))
    ∧ sparklineSpark [(5 : ℚ)] 4 = some (List.replicate 4 (SPARK.getD 0 ' ')) := by
  have hlen := resample_length values width
  have hvne : resample values width ≠ [] := by
    intro h
    rw [h] at hlen
    simp at hlen
    omega
  obtain ⟨lo, hmin⟩ : ∃ lo, (resample values width).min? = some lo := by
    cases h : (resample values width).min? with
    | none => exact absurd (List.min?_eq_none_iff.mp h) hvne
    | some lo => exact ⟨lo, rfl⟩
  obtain ⟨hi, hmax⟩ : ∃ hi, (resample values width).max? = some hi := by
    cases h : (resample values width).max? with
    | none => exact absurd (List.max?_eq_none_iff.mp h) hvne
    | some hi => exact ⟨hi, rfl⟩
  have hloc : lo = c :=
    hall _ (mem_resample hne (List.min?_mem (fun x y => min_choice x y) hmin))
  have hhic : hi = c :=
    hall _ (mem_resample hne (List.max?_mem (fun x y => max_choice x y) hmax))
  have hflat : hi = lo := by rw [hloc, hhic]
  have hspark :
      sparklineSpark values width = some (List.replicate width (SPARK.getD 0 ' ')) := by
    simp only [sparklineSpark, if_neg hne, hmin, hmax, if_pos hflat]
    congr 1
    rw [List.map_const', hlen]
  refine ⟨hspark, ?_, by with_unfolding_all rfl⟩
  rw [← sparkline_variants_agree]
  exact hspark

theorem claim_sparkline_flat_witness :
    sparklineSpark [(5 : ℚ)] 4 = some (List.replicate 4 (SPARK.getD 0 ' '))
    ∧ sparklineRich [(5 : ℚ)] 4 = some (List.replicate 4 (SPARK.getD 0 ' '))
    ∧ sparklineSpark [(5 : ℚ)] 4 = some (List.replicate 4 (SPARK.getD 0 ' ')) :=
  claim_sparkline_flat [5] 4 5 (List.cons_ne_nil _ _)
    (fun x hx => List.mem_singleton.mp hx) (by norm_num)

/-- C10: the plain-variant and rich-variant sparkline functions produce
identical outputs on every input (so in particular on every nonempty sample
list and positive width); moreover the clamp that only the plain variant
applies is redundant, because whenever hi > lo the computed palette index
already lies in [0, 7]. -/
theorem claim_sparkline_variants_equal :
    (∀ (values : List ℚ) (width : Nat),
      sparklineSpark values width = sparklineRich values width)
    ∧ (∀ lo hi v : ℚ, lo ≤ v → v ≤ hi → lo < hi →
      0 ≤ quantIdx lo hi v ∧ quantIdx lo hi v ≤ 7) :=
  ⟨sparkline_variants_agree,
   fun _ _ _ h1 h2 h3 => ⟨quantIdx_nonneg h1 h3, quantIdx_le_seven h2 h3⟩⟩

theorem claim_sparkline_variants_equal_witness :
    sparklineSpark [(1 : ℚ), 2] 3 = sparklineRich [(1 : ℚ), 2] 3 ∧
    (0 ≤ quantIdx 0 2 1 ∧ quantIdx 0 2 1 ≤ 7) :=
  ⟨claim_sparkline_variants_equal.1 [1, 2] 3,
   claim_sparkline_variants_equal.2 0 2 1 (by norm_num) (by norm_num) (by norm_num)⟩

/-! ## Lemmas about the Case B hourly list -/

theorem buildHourly_long {l : List ForecastItem} (h : 24 ≤ l.length) :
    buildHourly l = (l.take 24).map toHourly := by
  simp only [buildHourly]
  have hlen : ((l.take 24).map toHourly).length = 24 := by
    simp [List.length_take]
    omega
  cases hl : ((l.take 24).map toHourly).getLast? with
  | none => rfl
  | some x =>
    simp only []
    rw [hlen]
    simp

theorem buildHourly_short {l : List ForecastItem} {x : ForecastItem}
    (h2 : l.length < 24) (hx : l.getLast? = some x) :
    buildHourly l = l.map toHourly ++ List.replicate (24 - l.length) (toHourly x) := by
  simp only [buildHourly]
  rw [List.take_of_length_le (le_of_lt h2)]
  have hlast : (l.map toHourly).getLast? = some (toHourly x) := by
    rw [List.getLast?_map, hx]
    rfl
  rw [hlast]
  simp [List.length_map]

/-- C2: the Case B hourly list consists of the first min(24, n) forecast
entries verbatim as (timestamp, temperature, condition); with 24 or more
entries it is exactly the first 24 unpadded, and with 1 ≤ n < 24 entries it has
exactly 24 entries whose last 24 - n repeat the n-th entry. -/
theorem claim_fallback_hourly (l : List ForecastItem) :
    ((buildHourly l).take (min 24 l.length) = (l.take 24).map toHourly)
    ∧ (24 ≤ l.length →
        buildHourly l = (l.take 24).map toHourly ∧ (buildHourly l).length = 24)
    ∧ (∀ x, l.length < 24 → l.getLast? = some x →
        (buildHourly l).length = 24 ∧
        (buildHourly l).take l.length = l.map toHourly ∧
        (buildHourly l).drop l.length = List.replicate (24 - l.length) (toHourly x)) := by
  refine ⟨?_, ?_, ?_⟩
  · by_cases h24 : 24 ≤ l.length
    · rw [buildHourly_long h24, min_eq_left h24]
      apply List.take_of_length_le
      simp [List.length_take]
    · by_cases hnil : l = []
      · subst hnil
        rfl
      · obtain ⟨x, hx⟩ : ∃ x, l.getLast? = some x := by
          cases hl : l.getLast? with
          | none => exact absurd (List.getLast?_eq_none_iff.mp hl) hnil
          | some x => exact ⟨x, rfl⟩
        have hrhs : l.take 24 = l := List.take_of_length_le (by omega)
        rw [buildHourly_short (by omega) hx, min_eq_right (by omega), hrhs]
        have hlm : l.length = (l.map toHourly).length := (List.length_map _ _).symm
        rw [hlm, List.take_left]
  · intro h24
    refine ⟨buildHourly_long h24, ?_⟩
    rw [buildHourly_long h24]
    simp [List.length_take]
    omega
  · intro x hlt hx
    rw [buildHourly_short hlt hx]
    have hlm : l.length = (l.map toHourly).length := (List.length_map _ _).symm
    refine ⟨?_, ?_, ?_⟩
    · simp only [List.length_append, List.length_map, List.length_replicate]
      omega
    · rw [hlm, List.take_left]
    · rw [hlm, List.drop_left]

theorem claim_fallback_hourly_witness :
    (buildHourly sample5).length = 24 ∧
    (buildHourly sample5).take 5 = sample5.map toHourly ∧
    (buildHourly sample5).drop 5 = List.replicate 19 (toHourly (sampleItem 4)) := by
  have hlen : sample5.length = 5 := rfl
  have h := (claim_fallback_hourly sample5).2.2 (sampleItem 4)
    (by rw [hlen]; norm_num) (by with_unfolding_all rfl)
  rw [hlen] at h
  exact h

/-! ## Lemmas about the Case B daily aggregation -/

theorem lookupDay_addItem (m : List (Int × DayGroup)) (it : ForecastItem) (d : Int) :
    lookupDay (addItem m it) d =
      if itemDay it = d then some (((lookupDay m d).getD emptyGroup).push it)
      else lookupDay m d := by
  induction m with
  | nil =>
    by_cases h : itemDay it = d
    · simp [addItem, lookupDay, h]
    · simp [addItem, lookupDay, h]
  | cons kg rest ih =>
    obtain ⟨k, g⟩ := kg
    by_cases hk : k = itemDay it
    · subst hk
      simp only [addItem, if_pos rfl]
      by_cases hd : itemDay it = d
      · simp [lookupDay, hd]
      · simp [lookupDay, hd]
    · simp only [addItem, if_neg hk]
      by_cases hd : k = d
      · have hit : ¬(itemDay it = d) := fun h => hk (hd.trans h.symm)
        simp [lookupDay, hd, hit]
      · simp only [lookupDay, if_neg hd]
        exact ih

theorem lookupDay_foldl (l : List ForecastItem) :
    ∀ (m : List (Int × DayGroup)) (d : Int),
    lookupDay (l.foldl addItem m) d =
      if dayFilter l d = [] then lookupDay m d
      else some (((lookupDay m d).getD emptyGroup).pushAll (dayFilter l d)) := by
  induction l with
  | nil =>
    intro m d
    simp [dayFilter]
  | cons it rest ih =>
    intro m d
    rw [List.foldl_cons, ih]
    by_cases hd : itemDay it = d
    · have hf : dayFilter (it :: rest) d = it :: dayFilter rest d := by
        simp [dayFilter, List.filter_cons, hd]
      rw [hf, lookupDay_addItem, if_pos hd]
      by_cases hrest : dayFilter rest d = []
      · rw [if_pos hrest, if_neg (List.cons_ne_nil _ _), hrest]
        rfl
      · rw [if_neg hrest, if_neg (List.cons_ne_nil _ _)]
        rfl
    · have hf : dayFilter (it :: rest) d = dayFilter rest d := by
        simp [dayFilter, List.filter_cons, hd]
      rw [hf, lookupDay_addItem, if_neg hd]

theorem keys_addItem (m : List (Int × DayGroup)) (it : ForecastItem) :
    (addItem m it).map Prod.fst =
      if itemDay it ∈ m.map Prod.fst then m.map Prod.fst
      else m.map Prod.fst ++ [itemDay it] := by
  induction m with
  | nil => simp [addItem]
  | cons kg rest ih =>
    obtain ⟨k, g⟩ := kg
    by_cases hk : k = itemDay it
    · subst hk
      simp [addItem]
    · have hk2 : ¬(itemDay it = k) := fun h => hk h.symm
      simp only [addItem, if_neg hk, List.map_cons, List.mem_cons]
      rw [ih]
      by_cases hmem : itemDay it ∈ rest.map Prod.fst
      · rw [if_pos hmem, if_pos (Or.inr hmem)]
      · rw [if_neg hmem, if_neg (by tauto)]
        rfl

theorem mem_keys_foldl (l : List ForecastItem) :
    ∀ (m : List (Int × DayGroup)) (d : Int),
      d ∈ (l.foldl addItem m).map Prod.fst ↔
        d ∈ m.map Prod.fst ∨ d ∈ l.map itemDay := by
  induction l with
  | nil =>
    intro m d
    simp
  | cons it rest ih =>
    intro m d
    rw [List.foldl_cons, ih]
    have h := keys_addItem m it
    by_cases hmem : itemDay it ∈ m.map Prod.fst
    · rw [if_pos hmem] at h
      rw [h]
      simp only [List.map_cons, List.mem_cons]
      constructor
      · rintro (h1 | h1)
        · exact Or.inl h1
        · exact Or.inr (Or.inr h1)
      · rintro (h1 | h1 | h1)
        · exact Or.inl h1
        · subst h1
          exact Or.inl hmem
        · exact Or.inr h1
    · rw [if_neg hmem] at h
      rw [h]
      simp only [List.mem_append, List.mem_singleton, List.map_cons, List.mem_cons]
      tauto

theorem nodup_keys_foldl (l : List ForecastItem) :
    ∀ m : List (Int × DayGroup),
      (m.map Prod.fst).Nodup → ((l.foldl addItem m).map Prod.fst).Nodup := by
  induction l with
  | nil => exact fun m h => h
  | cons it rest ih =>
    intro m h
    rw [List.foldl_cons]
    apply ih
    have hk := keys_addItem m it
    by_cases hmem : itemDay it ∈ m.map Prod.fst
    · rw [if_pos hmem] at hk
      rw [hk]
      exact h
    · rw [if_neg hmem] at hk
      rw [hk, List.nodup_append]
      refine ⟨h, List.nodup_singleton _, ?_⟩
      intro a ha ha'
      rw [List.mem_singleton] at ha'
      subst ha'
      exact hmem ha

theorem pushAll_def :
    ∀ (l : List ForecastItem) (g0 : DayGroup),
      g0.pushAll l =
        ⟨g0.temps ++ l.map (fun it => (it.temp_min, it.temp_max)),
         g0.weathers ++ l.map firstWeather,
         g0.dts ++ l.map (fun it => it.dt)⟩ := by
  intro l
  induction l with
  | nil =>
    intro g0
    simp [DayGroup.pushAll]
  | cons x xs ih =>
    intro g0
    show (g0.push x).pushAll xs = _
    rw [ih]
    simp [DayGroup.push, List.append_assoc]

theorem mkDailyEntry_filter (now : Int) (g : List ForecastItem) :
    mkDailyEntry now (emptyGroup.pushAll g) =
      { dt := ((g[g.length / 2]?).map (fun it => it.dt)).getD now
        temp_min := (g.filterMap (fun it => it.temp_min)).min?
        temp_max := (g.filterMap (fun it => it.temp_max)).max?
        weather := ((g[g.length / 2]?).map firstWeather).getD ⟨none, none⟩ } := by
  rw [pushAll_def]
  simp only [mkDailyEntry, emptyGroup, List.nil_append]
  congr 1
  · rw [List.length_map, List.getD_eq_getElem?_getD, List.getElem?_map]
  · rw [List.filterMap_map]
    rfl
  · rw [List.filterMap_map]
    rfl
  · rw [List.length_map, List.getD_eq_getElem?_getD, List.getElem?_map]

theorem sortedKeys_eq (l : List ForecastItem) :
    List.insertionSort (fun a b => a ≤ b) ((buildDailyMap l).map Prod.fst) =
      List.insertionSort (fun a b => a ≤ b) ((l.map itemDay).dedup) := by
  have hnodup : ((buildDailyMap l).map Prod.fst).Nodup :=
    nodup_keys_foldl l [] (by simp)
  have hperm : ((buildDailyMap l).map Prod.fst).Perm ((l.map itemDay).dedup) := by
    rw [List.perm_ext_iff_of_nodup hnodup (List.nodup_dedup _)]
    intro a
    rw [List.mem_dedup]
    have := mem_keys_foldl l [] a
    simpa [buildDailyMap] using this
  exact @List.eq_of_perm_of_sorted ℤ (fun a b => a ≤ b) inferInstance _ _
    ((List.perm_insertionSort _ _).trans
      (hperm.trans (List.perm_insertionSort _ _).symm))
    (List.sorted_insertionSort _ _) (List.sorted_insertionSort _ _)

/-- The fold-and-sort daily construction agrees with the specification-side
description: one entry per distinct UTC day, in ascending day order, each
aggregated from exactly the entries of that day, in payload order. -/
theorem buildDaily_eq_dailySpec (now : Int) (l : List ForecastItem) :
    buildDaily now l = dailySpec now l := by
  unfold buildDaily dailySpec
  rw [sortedKeys_eq]
  apply List.map_congr_left
  intro day hday
  have hmem : day ∈ (l.map itemDay).dedup := by simpa using hday
  rw [List.mem_dedup] at hmem
  obtain ⟨it, hit, hitday⟩ := List.mem_map.mp hmem
  have hfne : dayFilter l day ≠ [] := by
    apply List.ne_nil_of_mem (a := it)
    simp [dayFilter, List.mem_filter, hit, hitday]
  have hlk : lookupDay (buildDailyMap l) day =
      some (emptyGroup.pushAll (dayFilter l day)) := by
    unfold buildDailyMap
    rw [lookupDay_foldl, if_neg hfne]
    rfl
  rw [hlk]
  exact mkDailyEntry_filter now (dayFilter l day)

theorem dailySpec_days (now : Int) (l : List ForecastItem) :
    (dailySpec now l).map (fun e => utcDay e.dt) =
      List.insertionSort (fun a b => a ≤ b) ((l.map itemDay).dedup) := by
  unfold dailySpec
  rw [List.map_map]
  have h : ∀ day ∈ List.insertionSort (fun a b => a ≤ b) ((l.map itemDay).dedup),
      utcDay ((((dayFilter l day)[(dayFilter l day).length / 2]?).map
        (fun it => it.dt)).getD now) = day := by
    intro day hday
    have hmem : day ∈ (l.map itemDay).dedup := by simpa using hday
    rw [List.mem_dedup] at hmem
    obtain ⟨it, hit, hitday⟩ := List.mem_map.mp hmem
    have hfne : dayFilter l day ≠ [] := by
      apply List.ne_nil_of_mem (a := it)
      simp [dayFilter, List.mem_filter, hit, hitday]
    have hlen : 0 < (dayFilter l day).length := List.length_pos.mpr hfne
    have hmid : (dayFilter l day).length / 2 < (dayFilter l day).length :=
      Nat.div_lt_self hlen (by norm_num)
    rw [List.getElem?_eq_getElem hmid]
    simp only [Option.map_some', Option.getD_some]
    have helem := List.getElem_mem hmid
    have hfilt := List.of_mem_filter helem
    simpa [itemDay] using hfilt
  calc (List.insertionSort (fun a b => a ≤ b) ((l.map itemDay).dedup)).map _
      = (List.insertionSort (fun a b => a ≤ b) ((l.map itemDay).dedup)).map id :=
        List.map_congr_left (fun day hday => h day hday)
    _ = _ := List.map_id _

theorem buildDaily_length (now : Int) (l : List ForecastItem) :
    (buildDaily now l).length = ((l.map itemDay).dedup).length := by
  rw [buildDaily_eq_dailySpec]
  unfold dailySpec
  rw [List.length_map, List.length_insertionSort]

theorem buildDaily_days_sorted (now : Int) (l : List ForecastItem) :
    ((buildDaily now l).map (fun e => utcDay e.dt)).Sorted (· < ·) := by
  rw [buildDaily_eq_dailySpec, dailySpec_days]
  apply List.Sorted.lt_of_le
  · exact List.sorted_insertionSort _ _
  · exact (List.perm_insertionSort _ _).nodup_iff.mpr (List.nodup_dedup _)

/-- C1: for every fallback payload, the daily output groups the entries by the
UTC calendar day of their timestamp, is in ascending day order with exactly one
entry per distinct day, takes min/max over the non-null bounds of that day (none
when no entry has a value), and the representative condition, description and
timestamp come from the entry at index count/2 of the day group — this is the
content of the equation with `dailySpec`.  Concretely, 30 three-hour entries
spanning 4 distinct days yield exactly 4 daily entries, for days 0, 1, 2 and 3
in order, each with non-null min and max. -/
theorem claim_fallback_daily :
    (∀ (now : Int) (l : List ForecastItem), buildDaily now l = dailySpec now l)
    ∧ (∀ (now : Int) (l : List ForecastItem),
        (buildDaily now l).length = ((l.map itemDay).dedup).length)
    ∧ (∀ (now : Int) (l : List ForecastItem),
        ((buildDaily now l).map (fun e => utcDay e.dt)).Sorted (· < ·))
    ∧ (buildDaily 0 sample30).length = 4
    ∧ (buildDaily 0 sample30).map (fun e => utcDay e.dt) = [0, 1, 2, 3]
    ∧ (buildDaily 0 sample30).map (fun e => (e.temp_min.isSome, e.temp_max.isSome))
        = List.replicate 4 (true, true) := by
  refine ⟨buildDaily_eq_dailySpec, buildDaily_length, buildDaily_days_sorted,
    ?_, ?_, ?_⟩
  · with_unfolding_all rfl
  · with_unfolding_all rfl
  · with_unfolding_all rfl

/-! ## Adapter and presentation claims -/

/-- C7: the One Call endpoint is attempted exactly once per fetch; a 200
response returns its payload unchanged without contacting the fallback; any
other status, or a raised transport error, falls back unconditionally to the
current+forecast fetch, never retrying the primary. -/
theorem claim_fetch_onecall_policy {α : Type} (pr : PrimaryResult α)
    (fb : Except String α) :
    ((fetch_onecall pr fb).2.count NetCall.onecall = 1)
    ∧ (∀ s b, pr = .resp s b → s = 200 →
        fetch_onecall pr fb = (.ok b, [NetCall.onecall]))
    ∧ (∀ s b, pr = .resp s b → s ≠ 200 →
        fetch_onecall pr fb = (fb, [NetCall.onecall, NetCall.currentAndForecast]))
    ∧ (pr = .exn →
        fetch_onecall pr fb = (fb, [NetCall.onecall, NetCall.currentAndForecast])) := by
  refine ⟨?_, ?_, ?_, ?_⟩
  · cases pr with
    | resp s b =>
      by_cases h : s = 200 <;> simp [fetch_onecall, h, List.count_cons]
    | exn => simp [fetch_onecall, List.count_cons]
  · rintro s b rfl rfl
    simp [fetch_onecall]
  · rintro s b rfl h
    simp [fetch_onecall, h]
  · rintro rfl
    simp [fetch_onecall]

theorem claim_fetch_onecall_policy_witness :
    fetch_onecall (PrimaryResult.resp 200 (5 : Nat)) (Except.ok 0) =
      (Except.ok 5, [NetCall.onecall]) :=
  (claim_fetch_onecall_policy (PrimaryResult.resp 200 (5 : Nat)) (Except.ok 0)).2.1
    200 5 rfl rfl

/-- C8: an empty geocoding match list makes the run fail with the NotFound
error before any forecast fetch is attempted — the outcome is the single
user-visible error line and the only endpoint contacted is the geocoder, so
neither the primary nor any fallback provider is tried; a nonempty match list
returns the latitude, longitude, name and country of the first match. -/
theorem claim_geocode_notfound {α : Type} (city : String)
    (pr : PrimaryResult α) (fb : Except String α) :
    (runCityQuery city [] pr fb =
      (.errorLine "Error: City not found", [NetCall.geocode]))
    ∧ (∀ (it : GeoMatch) (rest : List GeoMatch),
        geocode_owm city (it :: rest) =
          .ok (it.lat, it.lon, it.name.getD city, it.country.getD "")) :=
  ⟨rfl, fun _ _ => rfl⟩

/-- C9: in a rendered canonical snapshot, a missing current temperature and a
missing feels-like temperature each display as 0 rounded rather than crashing,
a missing humidity displays as the dash placeholder, and a missing wind speed
displays as 0; the unit suffixes are °C and m/s under metric, °F and mph under
imperial — in both render variants. -/
theorem claim_render_missing_defaults (cur : CurrentData)
    (ht : cur.temp = none) (hf : cur.feels_like = none)
    (hh : cur.humidity = none) (hw : cur.wind_speed = none) :
    tempLine cur "metric" = "Temp: 0°C  Feels: 0°C"
    ∧ tempLine cur "imperial" = "Temp: 0°F  Feels: 0°F"
    ∧ humidityWindLine cur "metric" = "Humidity: —%  Wind: 0 m/s"
    ∧ humidityWindLine cur "imperial" = "Humidity: —%  Wind: 0 mph"
    ∧ richTempRow cur "metric" = "0°C (feels 0°C)"
    ∧ richTempRow cur "imperial" = "0°F (feels 0°F)"
    ∧ richHumidityRow cur = "—%"
    ∧ richWindRow cur "metric" = "0 m/s"
    ∧ richWindRow cur "imperial" = "0 mph" := by
  obtain ⟨dt, temp, feels, hum, wind, w⟩ := cur
  simp only at ht hf hh hw
  subst ht hf hh hw
  refine ⟨?_, ?_, ?_, ?_, ?_, ?_, ?_, ?_, ?_⟩ <;> with_unfolding_all rfl

theorem claim_render_missing_defaults_witness :
    tempLine emptyCurrent "metric" = "Temp: 0°C  Feels: 0°C"
    ∧ tempLine emptyCurrent "imperial" = "Temp: 0°F  Feels: 0°F"
    ∧ humidityWindLine emptyCurrent "metric" = "Humidity: —%  Wind: 0 m/s"
    ∧ humidityWindLine emptyCurrent "imperial" = "Humidity: —%  Wind: 0 mph"
    ∧ richTempRow emptyCurrent "metric" = "0°C (feels 0°C)"
    ∧ richTempRow emptyCurrent "imperial" = "0°F (feels 0°F)"
    ∧ richHumidityRow emptyCurrent = "—%"
    ∧ richWindRow emptyCurrent "metric" = "0 m/s"
    ∧ richWindRow emptyCurrent "imperial" = "0 mph" :=
  claim_render_missing_defaults emptyCurrent rfl rfl rfl rfl

end WeatherCli
